import Mathlib

/-
Shallow embedding of src/2013-01-18-gsl-for-eigenvalues.cpp.

The source is a single bridge function

  Rcpp::NumericVector getEigenValues(Rcpp::NumericMatrix sM) {
      RcppGSL::matrix<double> M(sM);        -- stage a copy into a GSL buffer
      int k = M.ncol();
      RcppGSL::vector<double> ev(k);        -- GSL output buffer (calloc, zeros)
      gsl_eigen_symm_workspace *w = gsl_eigen_symm_alloc(k);
      gsl_eigen_symm (M, ev, w);            -- external routine, may fail
      gsl_eigen_symm_free (w);
      Rcpp::NumericVector res(Rcpp::wrap(ev));  -- fresh caller-owned copy
      M.free();
      ev.free();
      return res;
  }

We model matrices as row lists of rationals (exact stand-ins for doubles),
the external routine gsl_eigen_symm as an explicit parameter that receives
the staged matrix buffer and the output buffer contents and either fails
with a GSL error code or returns the mutated buffer contents, and the
GSL heap as an explicit record of which library-native resources are
still allocated when control returns, together with an event trace
recording allocations, the external invocation, the releases and the
result copy in program order.  Failure of the external routine aborts the
function at the point of the call, exactly as in the literal source,
where no release statement runs on that path.
-/

namespace GslEigen

/-- Scalar type standing in for double. -/
abbrev Q := ℚ

/-- Matrix as a list of rows, the representation behind Rcpp::NumericMatrix. -/
abbrev Mat := List (List Q)

/-- Column count of a matrix, as M.ncol() reports it. -/
def ncol (m : Mat) : Nat := (m.headD []).length

/-- Row count of a matrix. -/
def nrow (m : Mat) : Nat := m.length

/-- Entry access with default 0 out of range. -/
def getE (m : Mat) (i j : Nat) : Q := (m.getD i []).getD j 0

/-- Squareness together with symmetry of the stored entries. -/
def IsSymm (m : Mat) : Prop :=
  nrow m = ncol m ∧ ∀ i < nrow m, ∀ j < nrow m, getE m i j = getE m j i

instance (m : Mat) : Decidable (IsSymm m) := by
  unfold IsSymm; infer_instance

/-- Diagonal of a matrix, used by a sample external routine in witnesses. -/
def diagOf (m : Mat) : List Q := (List.range (nrow m)).map (fun i => getE m i i)

/-- Overwrite a fixed-size buffer positionally with new values: writes land
in the buffer, the buffer's size cannot change, values beyond the buffer
size have no representable effect. -/
def writeInto : List Q → List Q → List Q
  | [], _ => []
  | b :: bs, [] => b :: bs
  | _ :: bs, v :: vs => v :: writeInto bs vs

/-- Events of one invocation of the bridge, in program order. -/
inductive Event where
  | allocMat
  | allocVec (n : Nat)
  | allocWs (n : Nat)
  | callSymm (n : Nat)
  | freeWs
  | copyRes
  | freeMat
  | freeVec
  deriving DecidableEq

/-- Memory visible when control returns to the caller: the caller's own
matrix storage, the three library-native resources (none when released,
some when still allocated), and the caller-owned result copy. -/
structure Mem where
  callerMat : Mat
  gslMat : Option Mat
  gslVec : Option (List Q)
  gslWs : Option Nat
  res : Option (List Q)
  deriving DecidableEq

/-- Type of the external routine gsl_eigen_symm: it is handed the staged
matrix buffer contents and the output buffer contents, and either signals
a GSL error code or returns the two buffers' new contents (it may mutate
the matrix buffer and fully overwrites the output buffer). -/
abbrev Solver := Mat → List Q → Except Nat (Mat × List Q)

/-- Shallow embedding of getEigenValues, parameterized by the external
routine.  Returns the caller-visible outcome, the memory state at return,
and the event trace.  On failure of the external routine no release
statement runs, exactly as in the literal source. -/
def getEigenValues (gslEigenSymm : Solver) (sM : Mat) :
    Except Nat (List Q) × Mem × List Event :=
  let M : Mat := sM
  let k : Nat := ncol M
  let ev0 : List Q := List.replicate k 0
  let tr0 : List Event := [Event.allocMat, Event.allocVec k, Event.allocWs k]
  match gslEigenSymm M ev0 with
  | Except.error e =>
      (Except.error e,
       ⟨sM, some M, some ev0, some k, none⟩,
       tr0 ++ [Event.callSymm k])
  | Except.ok (_M2, vals) =>
      let ev1 := writeInto ev0 vals
      let res := ev1
      (Except.ok res,
       ⟨sM, none, none, none, some res⟩,
       tr0 ++ [Event.callSymm k, Event.freeWs, Event.copyRes,
               Event.freeMat, Event.freeVec])

/-- View of a matrix as a Mathlib matrix, for the external routine's
mathematical contract. -/
def toMatrix (m : Mat) (k : Nat) : Matrix (Fin k) (Fin k) Q :=
  Matrix.of fun i j => getE m i.val j.val

/-- Contract of the external symmetric-eigenvalue routine, stated on the
contents of the output buffer: it holds exactly the eigenvalues of the
staged matrix with multiplicity, i.e. the characteristic polynomial of the
matrix factors through the returned values. -/
def IsEigenOutput (m : Mat) (out : List Q) : Prop :=
  out.length = ncol m ∧
  ∀ x : Q, (out.map (fun t => x - t)).prod =
    Matrix.det (x • (1 : Matrix (Fin (ncol m)) (Fin (ncol m)) Q) - toMatrix m (ncol m))

/-- Sample external routine used in witnesses: succeeds, leaves the matrix
buffer alone, writes the diagonal into the output buffer. -/
def solveDiag : Solver := fun m _e => Except.ok (m, diagOf m)

/-- Sample external routine used in witnesses: succeeds but scribbles over
the matrix buffer, to show the caller's matrix is still unaffected. -/
def solveScramble : Solver := fun _m _e => Except.ok ([[99]], [99])

/-- Sample external routine used in witnesses: always signals GSL error
code 2 (the failure path of gsl_eigen_symm). -/
def solveFail : Solver := fun _m _e => Except.error 2

lemma writeInto_length (buf vals : List Q) :
    (writeInto buf vals).length = buf.length := by
  induction buf generalizing vals with
  | nil => simp [writeInto]
  | cons b bs ih =>
      cases vals with
      | nil => simp [writeInto]
      | cons v vs => simp [writeInto, ih]

lemma writeInto_eq_of_length (buf vals : List Q)
    (h : vals.length = buf.length) : writeInto buf vals = vals := by
  induction buf generalizing vals with
  | nil => cases vals with
      | nil => rfl
      | cons v vs => simp at h
  | cons b bs ih =>
      cases vals with
      | nil => simp at h
      | cons v vs =>
          simp only [List.length_cons, Nat.succ.injEq] at h
          simp [writeInto, ih vs h]

/-- C1: for every symmetric k×k input matrix with k ≥ 1, the bridge
getEigenValues, whenever the external routine returns normally, returns a
sequence of exactly k values: the result length equals the input's
dimension k, for every external routine.  The output buffer has fixed
size k, so the copy read back has length k. -/
theorem getEigenValues_returns_k_values (solve : Solver) (sM : Mat)
    (res : List Q) (mem : Mem) (tr : List Event)
    (hk : 1 ≤ ncol sM) (hsym : IsSymm sM)
    (h : getEigenValues solve sM = (Except.ok res, mem, tr)) :
    res.length = ncol sM := by
  unfold getEigenValues at h
  cases hcall : solve sM (List.replicate (ncol sM) 0) with
  | error e => simp [hcall] at h
  | ok p =>
      simp [hcall] at h
      obtain ⟨hres, -, -⟩ := h
      subst hres
      simp [writeInto_length]

theorem getEigenValues_returns_k_values_witness :
    1 ≤ ncol [[(1 : Q), 0], [0, 2]] ∧ IsSymm [[(1 : Q), 0], [0, 2]] ∧
    ([(1 : Q), 2].length = ncol [[(1 : Q), 0], [0, 2]]) :=
  ⟨by decide, by decide,
   getEigenValues_returns_k_values solveDiag [[(1 : Q), 0], [0, 2]]
     [(1 : Q), 2]
     ⟨[[(1 : Q), 0], [0, 2]], none, none, none, some [(1 : Q), 2]⟩
     [Event.allocMat, Event.allocVec 2, Event.allocWs 2, Event.callSymm 2,
      Event.freeWs, Event.copyRes, Event.freeMat, Event.freeVec]
     (by decide) (by decide) rfl⟩

/-- C2: the claim says all three library-native resources (staged matrix
buffer, eigenvalue buffer, workspace) are released on every exit path,
including failure of the external routine.  The code releases them only on
the success path: evaluating the bridge with a failing external routine
(GSL error code 2) on input [[1]] shows the error returns to the caller
with all three resources still allocated and no release event in the
trace. -/
theorem getEigenValues_leaks_all_resources_on_failure :
    (getEigenValues solveFail [[(1 : Q)]]).1 = Except.error 2 ∧
    (getEigenValues solveFail [[(1 : Q)]]).2.1.gslMat.isSome = true ∧
    (getEigenValues solveFail [[(1 : Q)]]).2.1.gslVec.isSome = true ∧
    (getEigenValues solveFail [[(1 : Q)]]).2.1.gslWs.isSome = true ∧
    Event.freeMat ∉ (getEigenValues solveFail [[(1 : Q)]]).2.2 ∧
    Event.freeVec ∉ (getEigenValues solveFail [[(1 : Q)]]).2.2 ∧
    Event.freeWs ∉ (getEigenValues solveFail [[(1 : Q)]]).2.2 :=
  ⟨rfl, rfl, rfl, rfl, by decide, by decide, by decide⟩

/-- C3: on a normal return the result is exactly the values the external
routine wrote into the library-native output buffer, in buffer order, and
it is a fresh caller-owned copy: at return the result is still present in
caller memory while the staged matrix buffer and the output buffer have
both been released. -/
theorem getEigenValues_result_is_buffer_copy (solve : Solver) (sM : Mat)
    (M2 : Mat) (vals : List Q)
    (hcall : solve sM (List.replicate (ncol sM) 0) = Except.ok (M2, vals))
    (hlen : vals.length = ncol sM) :
    (getEigenValues solve sM).1 = Except.ok vals ∧
    (getEigenValues solve sM).2.1.res = some vals ∧
    (getEigenValues solve sM).2.1.gslMat = none ∧
    (getEigenValues solve sM).2.1.gslVec = none := by
  have hw : writeInto (List.replicate (ncol sM) 0) vals = vals :=
    writeInto_eq_of_length _ _ (by simp [hlen])
  unfold getEigenValues
  simp [hcall, hw]

theorem getEigenValues_result_is_buffer_copy_witness :
    (getEigenValues solveDiag [[(4 : Q)]]).1 = Except.ok [(4 : Q)] ∧
    (getEigenValues solveDiag [[(4 : Q)]]).2.1.res = some [(4 : Q)] ∧
    (getEigenValues solveDiag [[(4 : Q)]]).2.1.gslMat = none ∧
    (getEigenValues solveDiag [[(4 : Q)]]).2.1.gslVec = none :=
  getEigenValues_result_is_buffer_copy solveDiag [[(4 : Q)]]
    [[(4 : Q)]] [(4 : Q)] rfl (by decide)

/-- C4: for every input matrix and every external routine, even one that
scribbles over the staged matrix buffer, the caller's input matrix is
unmodified at return: the staging step copies the input, so mutation by
the routine never reaches caller memory.  The bridge's only output is the
returned sequence and it holds no state across calls, being a function of
the routine and the input alone. -/
theorem getEigenValues_input_unmodified (solve : Solver) (sM : Mat)
    (r : Except Nat (List Q)) (mem : Mem) (tr : List Event)
    (h : getEigenValues solve sM = (r, mem, tr)) :
    mem.callerMat = sM := by
  unfold getEigenValues at h
  cases hcall : solve sM (List.replicate (ncol sM) 0) with
  | error e =>
      simp [hcall] at h
      obtain ⟨-, hmem, -⟩ := h
      subst hmem; rfl
  | ok p =>
      simp [hcall] at h
      obtain ⟨-, hmem, -⟩ := h
      subst hmem; rfl

theorem getEigenValues_input_unmodified_witness :
    ((getEigenValues solveScramble [[(7 : Q)]]).2.1).callerMat = [[(7 : Q)]] :=
  getEigenValues_input_unmodified solveScramble [[(7 : Q)]]
    (getEigenValues solveScramble [[(7 : Q)]]).1
    (getEigenValues solveScramble [[(7 : Q)]]).2.1
    (getEigenValues solveScramble [[(7 : Q)]]).2.2 rfl

/-- C5: the bridge is deterministic: it keeps no state between calls and
draws on no other input, so two invocations with the same external routine
and the same input matrix produce the same outcome, memory state and
trace. -/
theorem getEigenValues_deterministic (solve1 solve2 : Solver)
    (sM1 sM2 : Mat) (hs : solve1 = solve2) (hm : sM1 = sM2) :
    getEigenValues solve1 sM1 = getEigenValues solve2 sM2 := by
  subst hs; subst hm; rfl

theorem getEigenValues_deterministic_witness :
    getEigenValues solveDiag [[(2 : Q)]] = getEigenValues solveDiag [[(2 : Q)]] :=
  getEigenValues_deterministic solveDiag solveDiag [[(2 : Q)]] [[(2 : Q)]]
    rfl rfl

/-- C8: the bridge catches nothing and translates nothing: whenever the
external routine signals an error, the very same error code is what the
caller receives, the operation aborts at the point of the call (no result
copy event appears in the trace) and no partial result is returned. -/
theorem getEigenValues_propagates_error (solve : Solver) (sM : Mat)
    (e : Nat)
    (hcall : solve sM (List.replicate (ncol sM) 0) = Except.error e) :
    (getEigenValues solve sM).1 = Except.error e ∧
    (getEigenValues solve sM).2.1.res = none ∧
    Event.copyRes ∉ (getEigenValues solve sM).2.2 := by
  unfold getEigenValues
  simp [hcall]

theorem getEigenValues_propagates_error_witness :
    (getEigenValues solveFail [[(6 : Q)]]).1 = Except.error 2 ∧
    (getEigenValues solveFail [[(6 : Q)]]).2.1.res = none ∧
    Event.copyRes ∉ (getEigenValues solveFail [[(6 : Q)]]).2.2 :=
  getEigenValues_propagates_error solveFail [[(6 : Q)]] 2 rfl

/-- C9: the claim says the workspace is released immediately after the
external invocation regardless of outcome.  On the success path the trace
does order the release right after the call and before the result copy,
but on the failure path the code never reaches the release: with a failing
external routine on input [[3]] the workspace is still allocated at return
and no workspace-release event is in the trace, which ends at the
invocation. -/
theorem getEigenValues_workspace_leak_on_failure :
    (getEigenValues solveFail [[(3 : Q)]]).2.2 =
      [Event.allocMat, Event.allocVec 1, Event.allocWs 1, Event.callSymm 1] ∧
    (getEigenValues solveFail [[(3 : Q)]]).2.1.gslWs = some 1 :=
  ⟨rfl, rfl⟩

/-- C10: for every input matrix, square or not, the bridge derives the
problem dimension from the column count alone, performs no validation
before invoking the external routine (the invocation event, carrying
dimension ncol, appears in the trace of every call), and on a normal
return the result length equals the column count. -/
theorem getEigenValues_no_validation (solve : Solver) (sM : Mat)
    (r : Except Nat (List Q)) (mem : Mem) (tr : List Event)
    (h : getEigenValues solve sM = (r, mem, tr)) :
    Event.callSymm (ncol sM) ∈ tr ∧
    Event.allocVec (ncol sM) ∈ tr ∧
    Event.allocWs (ncol sM) ∈ tr ∧
    ∀ v : List Q, r = Except.ok v → v.length = ncol sM := by
  unfold getEigenValues at h
  cases hcall : solve sM (List.replicate (ncol sM) 0) with
  | error e =>
      simp [hcall] at h
      obtain ⟨hr, -, htr⟩ := h
      subst hr; subst htr
      refine ⟨by simp, by simp, by simp, ?_⟩
      intro v hv
      exact absurd hv (by simp)
  | ok p =>
      simp [hcall] at h
      obtain ⟨hr, -, htr⟩ := h
      subst htr
      refine ⟨by simp, by simp, by simp, ?_⟩
      intro v hv
      rw [← hr] at hv
      have hv2 : writeInto (List.replicate (ncol sM) 0) p.2 = v :=
        Except.ok.inj hv
      rw [← hv2]
      simp [writeInto_length]

theorem getEigenValues_no_validation_witness :
    Event.callSymm (ncol [[(1 : Q), 2, 3]]) ∈
      (getEigenValues solveDiag [[(1 : Q), 2, 3]]).2.2 ∧
    Event.allocVec (ncol [[(1 : Q), 2, 3]]) ∈
      (getEigenValues solveDiag [[(1 : Q), 2, 3]]).2.2 ∧
    Event.allocWs (ncol [[(1 : Q), 2, 3]]) ∈
      (getEigenValues solveDiag [[(1 : Q), 2, 3]]).2.2 ∧
    ∀ v : List Q,
      (getEigenValues solveDiag [[(1 : Q), 2, 3]]).1 = Except.ok v →
      v.length = ncol [[(1 : Q), 2, 3]] :=
  getEigenValues_no_validation solveDiag [[(1 : Q), 2, 3]]
    (getEigenValues solveDiag [[(1 : Q), 2, 3]]).1
    (getEigenValues solveDiag [[(1 : Q), 2, 3]]).2.1
    (getEigenValues solveDiag [[(1 : Q), 2, 3]]).2.2 rfl

lemma isEigenOutput_single (c : Q) : IsEigenOutput [[c]] [c] := by
  refine ⟨rfl, ?_⟩
  intro x
  have h1 : (([c].map (fun t => x - t)).prod) = x - c := by simp
  have h2 : Matrix.det
      (x • (1 : Matrix (Fin (ncol [[c]])) (Fin (ncol [[c]])) Q) -
        toMatrix [[c]] (ncol [[c]])) = x - c := by
    rw [show ncol [[c]] = 1 from rfl]
    rw [Matrix.det_fin_one]
    simp [toMatrix, getE, Matrix.sub_apply, Matrix.smul_apply,
      Matrix.one_apply_eq, smul_eq_mul]
  rw [h1, h2]

/-- C6: for the 1×1 input matrix [[c]], whenever the external routine
returns normally and its output satisfies the eigenvalue contract for
[[c]] (the characteristic polynomial x - c factors through the returned
values), the bridge returns the single-element sequence [c]. -/
theorem getEigenValues_one_by_one (solve : Solver) (c : Q)
    (res : List Q) (mem : Mem) (tr : List Event)
    (h : getEigenValues solve [[c]] = (Except.ok res, mem, tr))
    (heig : IsEigenOutput [[c]] res) :
    res = [c] := by
  obtain ⟨hlen, hpoly⟩ := heig
  rw [show ncol [[c]] = 1 from rfl] at hlen
  obtain ⟨v, rfl⟩ := List.length_eq_one.mp hlen
  have hc := hpoly c
  have hdet : Matrix.det
      (c • (1 : Matrix (Fin (ncol [[c]])) (Fin (ncol [[c]])) Q) -
        toMatrix [[c]] (ncol [[c]])) = 0 := by
    rw [show ncol [[c]] = 1 from rfl]
    rw [Matrix.det_fin_one]
    simp [toMatrix, getE, Matrix.sub_apply, Matrix.smul_apply,
      Matrix.one_apply_eq, smul_eq_mul]
  rw [hdet] at hc
  simp only [List.map_cons, List.map_nil, List.prod_cons, List.prod_nil,
    mul_one] at hc
  have : v = c := by linarith [sub_eq_zero.mp hc]
  rw [this]

theorem getEigenValues_one_by_one_witness :
    IsEigenOutput [[(5 : Q)]] [(5 : Q)] ∧ [(5 : Q)] = [(5 : Q)] :=
  ⟨isEigenOutput_single 5,
   getEigenValues_one_by_one solveDiag 5 [(5 : Q)]
     ⟨[[(5 : Q)]], none, none, none, some [(5 : Q)]⟩
     [Event.allocMat, Event.allocVec 1, Event.allocWs 1, Event.callSymm 1,
      Event.freeWs, Event.copyRes, Event.freeMat, Event.freeVec]
     rfl (isEigenOutput_single 5)⟩

lemma isEigenOutput_diag23 :
    IsEigenOutput [[(2 : Q), 0], [0, 3]] [(2 : Q), 3] := by
  refine ⟨rfl, ?_⟩
  intro x
  have h1 : (([(2 : Q), 3].map (fun t => x - t)).prod) = (x - 2) * (x - 3) := by
    simp
  have h2 : Matrix.det
      (x • (1 : Matrix (Fin (ncol [[(2 : Q), 0], [0, 3]]))
              (Fin (ncol [[(2 : Q), 0], [0, 3]])) Q) -
        toMatrix [[(2 : Q), 0], [0, 3]] (ncol [[(2 : Q), 0], [0, 3]])) =
      (x - 2) * (x - 3) := by
    rw [show ncol [[(2 : Q), 0], [0, 3]] = 2 from rfl]
    rw [Matrix.det_fin_two]
    simp [toMatrix, getE, Matrix.sub_apply, Matrix.smul_apply,
      Matrix.one_apply, smul_eq_mul]
  rw [h1, h2]

/-- C7: for the 2×2 symmetric input matrix [[2,0],[0,3]], whenever the
external routine returns normally and its output satisfies the eigenvalue
contract (the characteristic polynomial (x-2)(x-3) factors through the
returned values), the bridge returns a two-element sequence whose set of
values, ignoring order, is exactly the pair of 2 and 3. -/
theorem getEigenValues_two_by_two_diag (solve : Solver)
    (res : List Q) (mem : Mem) (tr : List Event)
    (h : getEigenValues solve [[(2 : Q), 0], [0, 3]] = (Except.ok res, mem, tr))
    (heig : IsEigenOutput [[(2 : Q), 0], [0, 3]] res) :
    res.length = 2 ∧ res.toFinset = ({2, 3} : Finset Q) := by
  obtain ⟨hlen, hpoly⟩ := heig
  rw [show ncol [[(2 : Q), 0], [0, 3]] = 2 from rfl] at hlen
  obtain ⟨a, b, rfl⟩ := List.length_eq_two.mp hlen
  have hdet : ∀ x : Q, Matrix.det
      (x • (1 : Matrix (Fin (ncol [[(2 : Q), 0], [0, 3]]))
              (Fin (ncol [[(2 : Q), 0], [0, 3]])) Q) -
        toMatrix [[(2 : Q), 0], [0, 3]] (ncol [[(2 : Q), 0], [0, 3]])) =
      (x - 2) * (x - 3) := by
    intro x
    rw [show ncol [[(2 : Q), 0], [0, 3]] = 2 from rfl]
    rw [Matrix.det_fin_two]
    simp [toMatrix, getE, Matrix.sub_apply, Matrix.smul_apply,
      Matrix.one_apply, smul_eq_mul]
  have h2 : (2 - a) * (2 - b) = 0 := by
    have := hpoly 2
    rw [hdet 2] at this
    simp only [List.map_cons, List.map_nil, List.prod_cons, List.prod_nil,
      mul_one] at this
    rw [this]; ring
  have h3 : (3 - a) * (3 - b) = 0 := by
    have := hpoly 3
    rw [hdet 3] at this
    simp only [List.map_cons, List.map_nil, List.prod_cons, List.prod_nil,
      mul_one] at this
    rw [this]; ring
  have ha2 : a = 2 ∨ b = 2 := by
    rcases mul_eq_zero.mp h2 with h | h
    · exact Or.inl (by linarith [sub_eq_zero.mp h])
    · exact Or.inr (by linarith [sub_eq_zero.mp h])
  have ha3 : a = 3 ∨ b = 3 := by
    rcases mul_eq_zero.mp h3 with h | h
    · exact Or.inl (by linarith [sub_eq_zero.mp h])
    · exact Or.inr (by linarith [sub_eq_zero.mp h])
  rcases ha2 with h2a | h2b
  · rcases ha3 with h3a | h3b
    · exfalso; rw [h2a] at h3a; norm_num at h3a
    · rw [h2a, h3b]
      exact ⟨rfl, by decide⟩
  · rcases ha3 with h3a | h3b
    · rw [h2b, h3a]
      refine ⟨rfl, ?_⟩
      rw [show ([(3 : Q), 2].toFinset) = ({3, 2} : Finset Q) from by decide]
      exact Finset.pair_comm 3 2
    · exfalso; rw [h2b] at h3b; norm_num at h3b

theorem getEigenValues_two_by_two_diag_witness :
    IsEigenOutput [[(2 : Q), 0], [0, 3]] [(2 : Q), 3] ∧
    ([(2 : Q), 3].length = 2 ∧
      ([(2 : Q), 3].toFinset = ({2, 3} : Finset Q))) :=
  ⟨isEigenOutput_diag23,
   getEigenValues_two_by_two_diag solveDiag [(2 : Q), 3]
     ⟨[[(2 : Q), 0], [0, 3]], none, none, none, some [(2 : Q), 3]⟩
     [Event.allocMat, Event.allocVec 2, Event.allocWs 2, Event.callSymm 2,
      Event.freeWs, Event.copyRes, Event.freeMat, Event.freeVec]
     rfl isEigenOutput_diag23⟩

end GslEigen
